import Mathlib

/-!
A verification development for the wallet lifecycle core of `web3-wallet-tools`.

The embedding follows the TypeScript sources:
* `src/wallets/models.ts` — `Wallet`, `TransactionResult`;
* `src/wallets/store/json-store.ts` — `JsonStore` (persisted JSON registry);
* `src/wallets/cli/create.ts` — the four orchestrators (`CreateWalletsHandler`,
  `GetBalancesHandler`, `FundWalletsHandler`, `DrainWalletsHandler`);
* `src/wallets/models.ts` (`EVMChainProvider`) and
  `src/wallets/chain-providers/solana.ts` (`SolanaChainProvider`) — `drainWallet`.

Effects are made explicit: the persisted registry file is a `FileState` threaded
through store operations, network calls are oracles of type `Except String _`
(a thrown JavaScript error is `Except.error`), and submitted transfers are
collected in an explicit list so that "no transfer was issued" is expressible.
-/

namespace WalletTools

/-- A wallet record (`Wallet` in `src/wallets/models.ts`). -/
structure Wallet where
  privateKey : String
  publicKey : String
  «alias» : String
  deriving DecidableEq

/-- Result of one transfer attempt (`TransactionResult` in `src/wallets/models.ts`). -/
structure TransactionResult where
  hash : Option String
  successful : Bool
  reason : Option String
  deriving DecidableEq

/-- A JSON value stored under a chain key of the persisted `WalletsData` object.
Besides a proper array of wallets, the key may be missing, or hold a non-array
JSON value; JavaScript distinguishes truthy non-arrays (objects, non-empty
strings, non-zero numbers) from falsy ones (`null`, `false`, `0`, `""`) because
`json-store.ts` tests `!data[chain]` before using the entry. -/
inductive StoreValue
  | absent
  | list (ws : List Wallet)
  | truthyNonList
  | falsyNonList
  deriving DecidableEq

/-- The parsed persisted object: a mapping from chain name to stored value
(`WalletsData` in `src/wallets/store/json-store.ts`). -/
def WalletsData := String → StoreValue

/-- The freshly initialized store content, `JSON.stringify({})`. -/
def emptyData : WalletsData := fun _ => StoreValue.absent

/-- The state of the persisted `wallets.json` file: parseable JSON object,
parseable but falsy JSON (e.g. `null`, for which `JSON.parse` succeeds but
`parsedData || {}` yields the empty object), or content on which `JSON.parse`
throws a `SyntaxError`. -/
inductive FileState
  | parsable (d : WalletsData)
  | falsyParse
  | unparseable

/-- `JsonStore.readData` (`json-store.ts` lines 45-69): parse the file; on a
`SyntaxError` reset the file to `{}` and return the empty object; a falsy parse
result degrades to the empty object without rewriting the file. Returns the
parsed data together with the file state after the call. -/
def JsonStore.readData : FileState → WalletsData × FileState
  | .parsable d => (d, .parsable d)
  | .falsyParse => (emptyData, .falsyParse)
  | .unparseable => (emptyData, .parsable emptyData)

/-- `JsonStore.getWallets` (`json-store.ts` lines 84-95): empty chain name gives
`[]`; otherwise read the file and return `data[chain]` when it is an array,
else `[]`. -/
def JsonStore.getWallets (chain : String) (fs : FileState) : List Wallet × FileState :=
  if chain = "" then ([], fs)
  else
    let r := JsonStore.readData fs
    (match r.1 chain with
      | .list ws => ws
      | _ => [], r.2)

/-- The list a caller observes from `getWallets` for a chain. -/
def storedWallets (chain : String) (fs : FileState) : List Wallet :=
  (JsonStore.getWallets chain fs).1

/-- `JsonStore.count` (`json-store.ts` lines 148-157). -/
def JsonStore.count (chain : String) (fs : FileState) : Nat × FileState :=
  let r := JsonStore.getWallets chain fs
  (r.1.length, r.2)

/-- The `Added / Updated / Skipped` counters of `JsonStore.add`. -/
structure AddCounts where
  updatedCount : Nat
  newCount : Nat
  skippedCount : Nat
  deriving DecidableEq

/-- JavaScript `Array.prototype.findIndex`, as used in `json-store.ts` line 129:
index of the first element satisfying the predicate (`none` for `-1`). -/
def findIndex (p : Wallet → Bool) : List Wallet → Option Nat
  | [] => none
  | x :: t => if p x then some 0 else (findIndex p t).map (· + 1)

/-- The list effect of one loop iteration of `JsonStore.add` for a wallet with a
non-empty public key: replace in place when the key is found, else push. -/
def upsertWallet (cur : List Wallet) (w : Wallet) : List Wallet :=
  match findIndex (fun x => x.publicKey == w.publicKey) cur with
  | some i => cur.set i w
  | none => cur ++ [w]

/-- One iteration of the `for (const wallet of wallets)` loop of `JsonStore.add`
(`json-store.ts` lines 121-139), acting on the current list and the counters. -/
def upsertStep (acc : List Wallet × AddCounts) (w : Wallet) : List Wallet × AddCounts :=
  if w.publicKey = "" then
    (acc.1, ⟨acc.2.updatedCount, acc.2.newCount, acc.2.skippedCount + 1⟩)
  else
    match findIndex (fun x => x.publicKey == w.publicKey) acc.1 with
    | some i => (acc.1.set i w, ⟨acc.2.updatedCount + 1, acc.2.newCount, acc.2.skippedCount⟩)
    | none => (acc.1 ++ [w], ⟨acc.2.updatedCount, acc.2.newCount + 1, acc.2.skippedCount⟩)

/-- `JsonStore.add` (`json-store.ts` lines 97-146). A single-wallet call is the
singleton list (`Array.isArray(walletInput) ? walletInput : [walletInput]`; a
JavaScript array, even empty, is never falsy, so the `!walletInput` guard only
concerns `null`/`undefined` inputs, which are outside this embedding).
An empty chain name returns without touching the file. A missing or falsy
`data[chain]` is replaced by `[]`; a truthy non-array entry makes the
`findIndex` call throw a `TypeError`, which propagates before any write.
Otherwise the updated full object is persisted in one write. -/
def JsonStore.add (chain : String) (walletInput : List Wallet) (fs : FileState) :
    FileState × Except String AddCounts :=
  if chain = "" then (fs, Except.ok ⟨0, 0, 0⟩)
  else
    let r := JsonStore.readData fs
    match r.1 chain with
    | .truthyNonList => (r.2, Except.error "TypeError: findIndex is not a function")
    | .list cur =>
      let res := walletInput.foldl upsertStep (cur, ⟨0, 0, 0⟩)
      (.parsable (fun c => if c = chain then .list res.1 else r.1 c), Except.ok res.2)
    | .absent =>
      let res := walletInput.foldl upsertStep ([], ⟨0, 0, 0⟩)
      (.parsable (fun c => if c = chain then .list res.1 else r.1 c), Except.ok res.2)
    | .falsyNonList =>
      let res := walletInput.foldl upsertStep ([], ⟨0, 0, 0⟩)
      (.parsable (fun c => if c = chain then .list res.1 else r.1 c), Except.ok res.2)

/-- Alias given to the i-th wallet overall: `wallet-${walletCount + i}`
(`create.ts` line 25). -/
def walletAliasFor (n : Nat) : String := "wallet-" ++ toString n

/-- `CreateWalletsHandler.handle` (`create.ts` lines 15-40): read the current
count, generate `count` wallets with sequential aliases via the provider's
`createWallet` (the oracle `gen`), and store them all in one `add` call. -/
def CreateWalletsHandler.handle (gen : String → Wallet) (chain : String) (count : Nat)
    (fs : FileState) : FileState × Except String AddCounts :=
  let r := JsonStore.count chain fs
  let wallets := (List.range count).map (fun i => gen (walletAliasFor (r.1 + i)))
  JsonStore.add chain wallets r.2

/-- Loop body of `GetBalancesHandler.handle` (`create.ts` lines 67-92): a
successful query adds to the running total and bumps the zero count when the
balance is exactly `0`; a thrown query is caught and leaves both untouched. -/
def balanceStep (getBalance : String → Except String Int) (acc : Int × Nat) (w : Wallet) :
    Int × Nat :=
  match getBalance w.publicKey with
  | .ok balance => (acc.1 + balance, acc.2 + (if balance = 0 then 1 else 0))
  | .error _ => acc

/-- `GetBalancesHandler.handle` (`create.ts` lines 55-100), reduced to its
aggregate output: total balance and zero-balance count over the wallet list. -/
def GetBalancesHandler.handle (getBalance : String → Except String Int)
    (wallets : List Wallet) : Int × Nat :=
  wallets.foldl (balanceStep getBalance) (0, 0)

/-- Conversion of a human-unit amount to the chain's smallest unit as done in
`FundWalletsHandler.handle` (`create.ts` lines 256-259 and 282-285):
`Math.floor(amount * 1e9)` lamports when the chain is `solana`, else
`Math.floor(amount * 1e18)` wei. -/
def toSmallestUnit (chain : String) (amount : ℚ) : Int :=
  if chain = "solana" then ⌊amount * 1000000000⌋ else ⌊amount * 1000000000000000000⌋

/-- Oracles used by `FundWalletsHandler.handle`: the provider's funder wallet,
its `getBalance`, and `fundWallet` for a recipient address (already closed over
the per-wallet amount and the funder). -/
structure FundEnv where
  funder : Wallet
  getBalance : String → Except String Int
  fundWallet : String → Except String TransactionResult

/-- The per-wallet loop of `FundWalletsHandler.handle` (`create.ts` lines
276-318). Returns the recipient addresses passed to `fundWallet`, in order,
together with the `(fundedCount, skippedCount)` outcome. A balance query that
throws is outside the `try` block and aborts the remaining wallets; a
`fundWallet` error is caught and the loop continues. -/
def fundLoop (env : FundEnv) (minUnits : Int) :
    List Wallet → List String × Except String (Nat × Nat)
  | [] => ([], Except.ok (0, 0))
  | w :: rest =>
    match env.getBalance w.publicKey with
    | .error e => ([], Except.error e)
    | .ok walletBalance =>
      if minUnits ≤ walletBalance then
        let r := fundLoop env minUnits rest
        (r.1, r.2.map (fun p => (p.1, p.2 + 1)))
      else
        let inc : Nat :=
          match env.fundWallet w.publicKey with
          | .ok res => if res.successful then 1 else 0
          | .error _ => 0
        let r := fundLoop env minUnits rest
        (w.publicKey :: r.1, r.2.map (fun p => (p.1 + inc, p.2)))

/-- `FundWalletsHandler.handle` (`create.ts` lines 243-321): load the wallets,
compute `requiredTotal = toSmallestUnit(chain, amount) * walletCount`, check it
against the funder balance and throw before any transfer when it exceeds it,
else run the sequential funding loop. Result: file state after the read, the
ordered recipients of the issued `fundWallet` calls, and the outcome. -/
def FundWalletsHandler.handle (env : FundEnv) (chain : String) (amount minBalance : ℚ)
    (fs : FileState) : FileState × List String × Except String (Nat × Nat) :=
  let r := JsonStore.getWallets chain fs
  let total : Int := toSmallestUnit chain amount * r.1.length
  match env.getBalance env.funder.publicKey with
  | .error e => (r.2, [], Except.error e)
  | .ok funderBalance =>
    if funderBalance < total then
      (r.2, [], Except.error "funder balance is less than the required funding amount")
    else
      let res := fundLoop env (toSmallestUnit chain minBalance) r.1
      (r.2, res.1, res.2)

/-- The soft-failure reason for an empty wallet (`models.ts` line 160,
`solana.ts` line 149). -/
def zeroBalanceReason : String := "wallet balance is 0"

/-- The soft-failure reason when the balance cannot cover the fee
(`models.ts` line 189, `solana.ts` line 163). -/
def insufficientFeeReason : String := "wallet has insufficient balance to cover the transfer fee"

/-- JavaScript truthiness of an optional bigint: `null`/`undefined` and `0n`
are falsy. -/
def jsTruthy : Option Int → Bool
  | some v => v != 0
  | none => false

/-- JavaScript `a || b` on optional bigints. -/
def jsOr (a b : Option Int) : Option Int := if jsTruthy a then a else b

/-- The fields of the `getFeeData()` answer used by the EVM drain. -/
structure EVMFeeData where
  maxFeePerGas : Option Int
  gasPrice : Option Int
  maxPriorityFeePerGas : Option Int
  deriving DecidableEq

/-- Oracles for one `EVMChainProvider.drainWallet` call on a fixed wallet:
the balance query, the fee-data query, and transaction submission plus
confirmation (hash and whether the receipt status is 1). An
`Except.error` is a thrown error, which `drainWallet` re-throws. -/
structure EVMDrainEnv where
  balance : Except String Int
  feeData : Except String EVMFeeData
  submit : Int → Except String (String × Bool)

/-- `EVMChainProvider.drainWallet` (`models.ts` lines 146-230). The second
component of a successful result lists the amounts of the transfers actually
submitted (empty on the two soft-failure branches). -/
def EVMChainProvider.drainWallet (estimatedTransferGasLimit : Int) (env : EVMDrainEnv) :
    Except String (TransactionResult × List Int) :=
  match env.balance with
  | .error e => Except.error e
  | .ok balance =>
    if balance ≤ 0 then Except.ok (⟨none, false, some zeroBalanceReason⟩, [])
    else
      match env.feeData with
      | .error e => Except.error e
      | .ok feeData =>
        let maxFeePerGas := jsOr feeData.maxFeePerGas feeData.gasPrice
        if jsTruthy maxFeePerGas then
          let gasCost := estimatedTransferGasLimit * maxFeePerGas.getD 0
          let amountToSend := balance - gasCost
          if amountToSend ≤ 0 then Except.ok (⟨none, false, some insufficientFeeReason⟩, [])
          else
            match env.submit amountToSend with
            | .error e => Except.error e
            | .ok s => Except.ok (⟨some s.1, s.2, none⟩, [amountToSend])
        else Except.error "Could not determine gas price"

/-- Oracles for one `SolanaChainProvider.drainWallet` call on a fixed wallet:
the balance query and `sendAndConfirmTransaction` (returning the signature). -/
structure SolanaDrainEnv where
  balance : Except String Int
  send : Int → Except String String

/-- `SolanaChainProvider.drainWallet` (`solana.ts` lines 127-215). The second
component of a successful result lists the amounts of the transfers actually
submitted (empty on the two soft-failure branches). -/
def SolanaChainProvider.drainWallet (estimatedMinimumFee : Int) (env : SolanaDrainEnv) :
    Except String (TransactionResult × List Int) :=
  match env.balance with
  | .error e => Except.error e
  | .ok balance =>
    if balance ≤ 0 then Except.ok (⟨none, false, some zeroBalanceReason⟩, [])
    else if balance ≤ estimatedMinimumFee then
      Except.ok (⟨none, false, some insufficientFeeReason⟩, [])
    else
      let amountToSend := balance - estimatedMinimumFee
      match env.send amountToSend with
      | .error e => Except.error e
      | .ok signature => Except.ok (⟨some signature, signature != "", none⟩, [amountToSend])

/-- The fixed drain concurrency width (`create.ts` line 136). -/
def concurrencyLimit : Nat := 20

/-- Fuel-indexed splitting into consecutive slices of `width`, mirroring
`for (let i = 0; i < wallets.length; i += concurrencyLimit)` with
`wallets.slice(i, i + concurrencyLimit)` (`create.ts` lines 148-149). The fuel
is always instantiated with the list length, which bounds the iteration. -/
def chunksOfAux (width : Nat) : Nat → List Wallet → List (List Wallet)
  | _, [] => []
  | 0, _ :: _ => []
  | fuel + 1, a :: rest => ((a :: rest).take width) :: chunksOfAux width fuel ((a :: rest).drop width)

/-- The batch decomposition of the drain loop. -/
def chunksOf (width : Nat) (l : List Wallet) : List (List Wallet) := chunksOfAux width l.length l

/-- The batches formed by `DrainWalletsHandler.handle`. -/
def DrainWalletsHandler.batches (wallets : List Wallet) : List (List Wallet) :=
  chunksOf concurrencyLimit wallets

/-- Observable events of the drain loop: a `drainWallet` call being issued for
a wallet, and that call's promise resolving. -/
inductive DrainEvent
  | issue (w : Wallet)
  | resolve (w : Wallet)
  deriving DecidableEq

/-- Events of one batch: `batch.map(...)` issues every call of the batch, then
`await Promise.all` resolves all of them — in an order chosen by the runtime,
abstracted by `resolveOrder` — before the loop continues. -/
def batchEvents (resolveOrder : List Wallet → List Wallet) (b : List Wallet) :
    List DrainEvent :=
  b.map DrainEvent.issue ++ (resolveOrder b).map DrainEvent.resolve

/-- The event trace of `DrainWalletsHandler.handle` (`create.ts` lines
148-207): batches are processed in order, each fully resolved before the next
one starts. -/
def DrainWalletsHandler.trace (resolveOrder : List Wallet → List Wallet)
    (wallets : List Wallet) : List DrainEvent :=
  ((DrainWalletsHandler.batches wallets).map (batchEvents resolveOrder)).flatten

/-! ### Library of facts about the store embedding -/

theorem readData_snd (fs : FileState) :
    JsonStore.readData (JsonStore.readData fs).2 = JsonStore.readData fs := by
  cases fs <;> rfl

theorem findIndex_eq_none_iff (p : Wallet → Bool) (l : List Wallet) :
    findIndex p l = none ↔ ∀ x ∈ l, p x = false := by
  induction l with
  | nil => simp [findIndex]
  | cons a t ih => by_cases h : p a <;> simp [findIndex, h, ih]

theorem findIndex_some_spec (p : Wallet → Bool) :
    ∀ (l : List Wallet) (i : Nat), findIndex p l = some i →
      ∃ hi : i < l.length, p (l.get ⟨i, hi⟩) = true := by
  intro l
  induction l with
  | nil => intro i h; simp [findIndex] at h
  | cons a t ih =>
    intro i h
    by_cases hp : p a
    · simp [findIndex, hp] at h
      exact h ▸ ⟨Nat.succ_pos _, hp⟩
    · simp [findIndex, hp] at h
      obtain ⟨j, hj, rfl⟩ := h
      obtain ⟨hlt, hget⟩ := ih j hj
      exact ⟨Nat.succ_lt_succ hlt, hget⟩

theorem getD_set_ne (l : List Wallet) (i j : Nat) (w d : Wallet) (h : j ≠ i) :
    (l.set i w).getD j d = l.getD j d := by
  simp [List.getD_eq_getElem?_getD, List.getElem?_set_ne (Ne.symm h)]

/-- In the non-degenerate, non-throwing cases, `add` performs the upsert loop on
the currently visible list and persists the full updated object. -/
theorem add_ok_of_wf (chain : String) (ws : List Wallet) (fs : FileState)
    (hc : chain ≠ "") (hwf : (JsonStore.readData fs).1 chain ≠ StoreValue.truthyNonList) :
    JsonStore.add chain ws fs =
      (FileState.parsable (fun c => if c = chain
          then StoreValue.list (ws.foldl upsertStep (storedWallets chain fs, ⟨0, 0, 0⟩)).1
          else (JsonStore.readData fs).1 c),
       Except.ok (ws.foldl upsertStep (storedWallets chain fs, ⟨0, 0, 0⟩)).2) := by
  cases h : (JsonStore.readData fs).1 chain with
  | truthyNonList => exact absurd h hwf
  | list cur => simp [JsonStore.add, storedWallets, JsonStore.getWallets, hc, h]
  | absent => simp [JsonStore.add, storedWallets, JsonStore.getWallets, hc, h]
  | falsyNonList => simp [JsonStore.add, storedWallets, JsonStore.getWallets, hc, h]

theorem storedWallets_update_self (chain : String) (hc : chain ≠ "") (nl : List Wallet)
    (f : WalletsData) :
    storedWallets chain
      (FileState.parsable (fun c => if c = chain then StoreValue.list nl else f c)) = nl := by
  simp [storedWallets, JsonStore.getWallets, JsonStore.readData, hc]

theorem storedWallets_update_other (c chain : String) (hne : c ≠ chain) (nl : List Wallet)
    (f : WalletsData) :
    storedWallets c
      (FileState.parsable (fun x => if x = chain then StoreValue.list nl else f x)) =
    storedWallets c (FileState.parsable f) := by
  by_cases hc : c = ""
  · simp [storedWallets, JsonStore.getWallets, hc]
  · simp [storedWallets, JsonStore.getWallets, JsonStore.readData, hc, hne]

theorem storedWallets_readData_snd (c : String) (fs : FileState) :
    storedWallets c (JsonStore.readData fs).2 = storedWallets c fs := by
  cases fs with
  | parsable d => rfl
  | falsyParse => rfl
  | unparseable =>
    by_cases hc : c = "" <;>
      simp [storedWallets, JsonStore.getWallets, JsonStore.readData, hc, emptyData]

theorem storedWallets_parsable_readData (c : String) (fs : FileState) :
    storedWallets c (FileState.parsable (JsonStore.readData fs).1) = storedWallets c fs := by
  cases fs with
  | parsable d => rfl
  | falsyParse =>
    by_cases hc : c = "" <;>
      simp [storedWallets, JsonStore.getWallets, JsonStore.readData, hc, emptyData]
  | unparseable =>
    by_cases hc : c = "" <;>
      simp [storedWallets, JsonStore.getWallets, JsonStore.readData, hc, emptyData]

theorem storedWallets_getWallets_snd (chain c : String) (fs : FileState) :
    storedWallets c (JsonStore.getWallets chain fs).2 = storedWallets c fs := by
  by_cases hchain : chain = ""
  · simp [JsonStore.getWallets, hchain]
  · have h2 : (JsonStore.getWallets chain fs).2 = (JsonStore.readData fs).2 := by
      simp [JsonStore.getWallets, hchain]
    rw [h2, storedWallets_readData_snd]

theorem foldl_upsertStep_fst (ws : List Wallet) :
    ∀ (cur : List Wallet) (c : AddCounts),
      (ws.foldl upsertStep (cur, c)).1 =
        (ws.filter (fun w => !(w.publicKey == ""))).foldl upsertWallet cur := by
  induction ws with
  | nil => intro cur c; rfl
  | cons a t ih =>
    intro cur c
    by_cases h : a.publicKey = ""
    · have hstep : upsertStep (cur, c) a =
          (cur, ⟨c.updatedCount, c.newCount, c.skippedCount + 1⟩) := by
        simp [upsertStep, h]
      rw [List.foldl_cons, hstep, ih]
      simp [List.filter_cons, h]
    · have hstep1 : (upsertStep (cur, c) a).1 = upsertWallet cur a := by
        unfold upsertStep upsertWallet
        rw [if_neg h]
        cases findIndex (fun x => x.publicKey == a.publicKey) cur <;> rfl
      rw [List.foldl_cons]
      have : t.foldl upsertStep (upsertStep (cur, c) a) =
          t.foldl upsertStep ((upsertStep (cur, c) a).1, (upsertStep (cur, c) a).2) := by
        rw [Prod.mk.eta]
      rw [this, ih, hstep1]
      simp [List.filter_cons, h]

theorem foldl_upsertStep_skipped (ws : List Wallet) :
    ∀ (cur : List Wallet) (c : AddCounts),
      (ws.foldl upsertStep (cur, c)).2.skippedCount =
        c.skippedCount + (ws.filter (fun w => w.publicKey == "")).length := by
  induction ws with
  | nil => intro cur c; simp
  | cons a t ih =>
    intro cur c
    by_cases h : a.publicKey = ""
    · have hstep : upsertStep (cur, c) a =
          (cur, ⟨c.updatedCount, c.newCount, c.skippedCount + 1⟩) := by
        simp [upsertStep, h]
      rw [List.foldl_cons, hstep, ih]
      simp [List.filter_cons, h]
      omega
    · rw [List.foldl_cons]
      have : t.foldl upsertStep (upsertStep (cur, c) a) =
          t.foldl upsertStep ((upsertStep (cur, c) a).1, (upsertStep (cur, c) a).2) := by
        rw [Prod.mk.eta]
      rw [this, ih]
      have hsk : (upsertStep (cur, c) a).2.skippedCount = c.skippedCount := by
        unfold upsertStep
        rw [if_neg h]
        cases findIndex (fun x => x.publicKey == a.publicKey) cur <;> rfl
      rw [hsk]
      simp [List.filter_cons, h]

theorem foldl_upsertStep_all_empty (ws : List Wallet) :
    ∀ (cur : List Wallet) (c : AddCounts), (∀ w ∈ ws, w.publicKey = "") →
      ws.foldl upsertStep (cur, c) =
        (cur, ⟨c.updatedCount, c.newCount, c.skippedCount + ws.length⟩) := by
  induction ws with
  | nil => intro cur c _; simp
  | cons a t ih =>
    intro cur c hall
    have ha : a.publicKey = "" := hall a (by simp)
    have hstep : upsertStep (cur, c) a =
        (cur, ⟨c.updatedCount, c.newCount, c.skippedCount + 1⟩) := by
      simp [upsertStep, ha]
    rw [List.foldl_cons, hstep, ih _ _ (fun w hw => hall w (by simp [hw]))]
    simp [AddCounts.mk.injEq]
    omega

theorem foldl_upsertWallet_fresh :
    ∀ (ws cur : List Wallet),
      (∀ w ∈ ws, ∀ x ∈ cur, x.publicKey ≠ w.publicKey) →
      (ws.map Wallet.publicKey).Nodup →
      ws.foldl upsertWallet cur = cur ++ ws := by
  intro ws
  induction ws with
  | nil => intro cur _ _; simp
  | cons a t ih =>
    intro cur hfresh hnd
    have hnd' : (a.publicKey :: t.map Wallet.publicKey).Nodup := by
      simpa using hnd
    have hnone : findIndex (fun x => x.publicKey == a.publicKey) cur = none := by
      rw [findIndex_eq_none_iff]
      intro x hx
      simp [hfresh a (by simp) x hx]
    have h1 : upsertWallet cur a = cur ++ [a] := by simp [upsertWallet, hnone]
    rw [List.foldl_cons, h1, ih (cur ++ [a]) ?_ ?_]
    · simp
    · intro w hw x hx
      rcases List.mem_append.mp hx with hx | hx
      · exact hfresh w (by simp [hw]) x hx
      · have hxa : x = a := by simpa using hx
        subst hxa
        intro hEq
        exact (List.nodup_cons.mp hnd').1 (List.mem_map.mpr ⟨w, hw, hEq.symm⟩)
    · exact (List.nodup_cons.mp hnd').2

/-! ### Claim theorems about the registry -/

/-- Claim C1: for every chain and every wallet `w` with a non-empty `publicKey`,
`add` with `w` replaces the entry at the existing position of a stored wallet
with the same `publicKey` (other entries and their order unchanged, length
unchanged), and appends `w` (length increases by exactly 1) when no stored
wallet has that `publicKey`. -/
theorem jsonStore_add_upsert (fs : FileState) (chain : String) (w : Wallet)
    (hchain : chain ≠ "") (hpk : w.publicKey ≠ "")
    (hwf : (JsonStore.readData fs).1 chain ≠ StoreValue.truthyNonList) :
    ∃ fs' counts, JsonStore.add chain [w] fs = (fs', Except.ok counts) ∧
      ((∃ x ∈ storedWallets chain fs, x.publicKey = w.publicKey) →
        ∃ i, ∃ hi : i < (storedWallets chain fs).length,
          ((storedWallets chain fs).get ⟨i, hi⟩).publicKey = w.publicKey ∧
          storedWallets chain fs' = (storedWallets chain fs).set i w ∧
          (storedWallets chain fs').length = (storedWallets chain fs).length ∧
          (∀ j, j ≠ i → ∀ d, (storedWallets chain fs').getD j d =
            (storedWallets chain fs).getD j d)) ∧
      ((∀ x ∈ storedWallets chain fs, x.publicKey ≠ w.publicKey) →
        storedWallets chain fs' = storedWallets chain fs ++ [w] ∧
        (storedWallets chain fs').length = (storedWallets chain fs).length + 1) := by
  have key := add_ok_of_wf chain [w] fs hchain hwf
  have hview : storedWallets chain (JsonStore.add chain [w] fs).1 =
      (upsertStep (storedWallets chain fs, ⟨0, 0, 0⟩) w).1 := by
    rw [key]
    exact storedWallets_update_self chain hchain _ _
  have hstep : (upsertStep (storedWallets chain fs, (⟨0, 0, 0⟩ : AddCounts)) w).1 =
      upsertWallet (storedWallets chain fs) w := by
    unfold upsertStep upsertWallet
    rw [if_neg hpk]
    cases findIndex (fun x => x.publicKey == w.publicKey) (storedWallets chain fs) <;> rfl
  refine ⟨(JsonStore.add chain [w] fs).1,
    ([w].foldl upsertStep (storedWallets chain fs, ⟨0, 0, 0⟩)).2, by rw [key], ?_, ?_⟩
  · intro hex
    cases hfi : findIndex (fun x => x.publicKey == w.publicKey) (storedWallets chain fs) with
    | none =>
      exfalso
      obtain ⟨x, hx, hpx⟩ := hex
      have := (findIndex_eq_none_iff _ _).mp hfi x hx
      simp [hpx] at this
    | some i =>
      obtain ⟨hi, hp⟩ := findIndex_some_spec _ _ i hfi
      refine ⟨i, hi, by simpa using hp, ?_, ?_, ?_⟩
      · rw [hview, hstep]
        unfold upsertWallet
        rw [hfi]
      · rw [hview, hstep]
        unfold upsertWallet
        rw [hfi]
        simp
      · intro j hj d
        rw [hview, hstep]
        unfold upsertWallet
        rw [hfi]
        exact getD_set_ne _ i j w d hj
  · intro hall
    have hfi : findIndex (fun x => x.publicKey == w.publicKey) (storedWallets chain fs) = none := by
      rw [findIndex_eq_none_iff]
      intro x hx
      simp [hall x hx]
    constructor
    · rw [hview, hstep]
      unfold upsertWallet
      rw [hfi]
    · rw [hview, hstep]
      unfold upsertWallet
      rw [hfi]
      simp

def wC1a : Wallet := ⟨"key0", "pk0", "wallet-0"⟩

def wC1b : Wallet := ⟨"key1", "pk0", "wallet-renamed"⟩

def fsC1 : FileState :=
  FileState.parsable (fun c => if c = "evm" then StoreValue.list [wC1a] else StoreValue.absent)

/-- Witness for C1 at a concrete store holding one wallet whose `publicKey`
collides with the added wallet. -/
theorem jsonStore_add_upsert_witness :
    ∃ fs' counts, JsonStore.add "evm" [wC1b] fsC1 = (fs', Except.ok counts) ∧
      ((∃ x ∈ storedWallets "evm" fsC1, x.publicKey = wC1b.publicKey) →
        ∃ i, ∃ hi : i < (storedWallets "evm" fsC1).length,
          ((storedWallets "evm" fsC1).get ⟨i, hi⟩).publicKey = wC1b.publicKey ∧
          storedWallets "evm" fs' = (storedWallets "evm" fsC1).set i wC1b ∧
          (storedWallets "evm" fs').length = (storedWallets "evm" fsC1).length ∧
          (∀ j, j ≠ i → ∀ d, (storedWallets "evm" fs').getD j d =
            (storedWallets "evm" fsC1).getD j d)) ∧
      ((∀ x ∈ storedWallets "evm" fsC1, x.publicKey ≠ wC1b.publicKey) →
        storedWallets "evm" fs' = storedWallets "evm" fsC1 ++ [wC1b] ∧
        (storedWallets "evm" fs').length = (storedWallets "evm" fsC1).length + 1) :=
  jsonStore_add_upsert fsC1 "evm" wC1b (by decide) (by decide) (by decide)

/-- Claim C9: an input wallet with an empty `publicKey` is counted as skipped
and never stored; a batch consisting only of empty-`publicKey` wallets leaves
the chain's wallet list unchanged. -/
theorem jsonStore_add_rejects_empty (fs : FileState) (chain : String) (ws : List Wallet)
    (hchain : chain ≠ "") (hwf : (JsonStore.readData fs).1 chain ≠ StoreValue.truthyNonList) :
    ∃ fs' counts, JsonStore.add chain ws fs = (fs', Except.ok counts) ∧
      counts.skippedCount = (ws.filter (fun w => w.publicKey == "")).length ∧
      storedWallets chain fs' =
        (ws.filter (fun w => !(w.publicKey == ""))).foldl upsertWallet
          (storedWallets chain fs) ∧
      ((∀ w ∈ ws, w.publicKey = "") →
        storedWallets chain fs' = storedWallets chain fs ∧
        counts.skippedCount = ws.length ∧ counts.newCount = 0 ∧ counts.updatedCount = 0) := by
  have key := add_ok_of_wf chain ws fs hchain hwf
  have hview : storedWallets chain (JsonStore.add chain ws fs).1 =
      (ws.foldl upsertStep (storedWallets chain fs, ⟨0, 0, 0⟩)).1 := by
    rw [key]
    exact storedWallets_update_self chain hchain _ _
  refine ⟨(JsonStore.add chain ws fs).1,
    (ws.foldl upsertStep (storedWallets chain fs, ⟨0, 0, 0⟩)).2, by rw [key], ?_, ?_, ?_⟩
  · rw [foldl_upsertStep_skipped]
    simp
  · rw [hview, foldl_upsertStep_fst]
  · intro hall
    have hfold := foldl_upsertStep_all_empty ws (storedWallets chain fs) ⟨0, 0, 0⟩ hall
    refine ⟨?_, ?_, ?_, ?_⟩
    · rw [hview, hfold]
    · rw [hfold]
      simp
    · rw [hfold]
    · rw [hfold]

def fsC9 : FileState :=
  FileState.parsable
    (fun c => if c = "solana" then StoreValue.list [⟨"keyS", "pkS", "wallet-0"⟩]
      else StoreValue.absent)

/-- Witness for C9 at a concrete store and a batch of two empty-key wallets. -/
theorem jsonStore_add_rejects_empty_witness :
    ∃ fs' counts,
      JsonStore.add "solana" [⟨"a", "", "x"⟩, ⟨"b", "", "y"⟩] fsC9 = (fs', Except.ok counts) ∧
      counts.skippedCount =
        (([⟨"a", "", "x"⟩, ⟨"b", "", "y"⟩] : List Wallet).filter
          (fun w => w.publicKey == "")).length ∧
      storedWallets "solana" fs' =
        (([⟨"a", "", "x"⟩, ⟨"b", "", "y"⟩] : List Wallet).filter
          (fun w => !(w.publicKey == ""))).foldl upsertWallet (storedWallets "solana" fsC9) ∧
      ((∀ w ∈ ([⟨"a", "", "x"⟩, ⟨"b", "", "y"⟩] : List Wallet), w.publicKey = "") →
        storedWallets "solana" fs' = storedWallets "solana" fsC9 ∧
        counts.skippedCount = ([⟨"a", "", "x"⟩, ⟨"b", "", "y"⟩] : List Wallet).length ∧
        counts.newCount = 0 ∧ counts.updatedCount = 0) :=
  jsonStore_add_rejects_empty fsC9 "solana" [⟨"a", "", "x"⟩, ⟨"b", "", "y"⟩]
    (by decide) (by decide)

/-- Claim C10: `add` on chain `chain` leaves the wallet list observed through
`getWallets` for every other chain `c` unchanged, whatever the outcome. -/
theorem jsonStore_add_frame (fs : FileState) (c chain : String) (ws : List Wallet)
    (hne : c ≠ chain) :
    storedWallets c (JsonStore.add chain ws fs).1 = storedWallets c fs := by
  by_cases hchain : chain = ""
  · simp [JsonStore.add, hchain]
  · by_cases hwf : (JsonStore.readData fs).1 chain = StoreValue.truthyNonList
    · have h1 : (JsonStore.add chain ws fs).1 = (JsonStore.readData fs).2 := by
        simp [JsonStore.add, hchain, hwf]
      rw [h1, storedWallets_readData_snd]
    · rw [add_ok_of_wf chain ws fs hchain hwf]
      rw [show (FileState.parsable (fun x => if x = chain
          then StoreValue.list (ws.foldl upsertStep (storedWallets chain fs, ⟨0, 0, 0⟩)).1
          else (JsonStore.readData fs).1 x),
          Except.ok (ws.foldl upsertStep (storedWallets chain fs, ⟨0, 0, 0⟩)).2).1 =
          FileState.parsable (fun x => if x = chain
          then StoreValue.list (ws.foldl upsertStep (storedWallets chain fs, ⟨0, 0, 0⟩)).1
          else (JsonStore.readData fs).1 x) from rfl]
      rw [storedWallets_update_other c chain hne, storedWallets_parsable_readData]

def fsC10 : FileState :=
  FileState.parsable
    (fun c =>
      if c = "evm" then StoreValue.list [⟨"keyE", "pkE", "wallet-0"⟩]
      else if c = "solana" then StoreValue.list [⟨"keyS", "pkS", "wallet-0"⟩]
      else StoreValue.absent)

/-- Witness for C10: adding to `evm` leaves the `solana` list unchanged. -/
theorem jsonStore_add_frame_witness :
    storedWallets "solana" (JsonStore.add "evm" [⟨"keyN", "pkN", "wallet-1"⟩] fsC10).1 =
      storedWallets "solana" fsC10 :=
  jsonStore_add_frame fsC10 "solana" "evm" [⟨"keyN", "pkN", "wallet-1"⟩] (by decide)

/-- Claim C7: a chain key that is absent or maps to a non-array value degrades
to the empty list without an error, and an unparseable file makes `getWallets`
return the empty list while resetting the store so that subsequent reads see an
empty, valid store. -/
theorem getWallets_degrades_and_recovers (d : WalletsData) (chain : String)
    (hmal : d chain = StoreValue.absent ∨ d chain = StoreValue.truthyNonList ∨
      d chain = StoreValue.falsyNonList) (hchain : chain ≠ "") :
    JsonStore.getWallets chain (FileState.parsable d) = ([], FileState.parsable d) ∧
    JsonStore.getWallets chain FileState.unparseable = ([], FileState.parsable emptyData) ∧
    (∀ c, JsonStore.getWallets c (FileState.parsable emptyData) =
      ([], FileState.parsable emptyData)) := by
  refine ⟨?_, ?_, ?_⟩
  · rcases hmal with h | h | h <;>
      simp [JsonStore.getWallets, JsonStore.readData, hchain, h]
  · simp [JsonStore.getWallets, JsonStore.readData, hchain, emptyData]
  · intro c
    by_cases hc : c = "" <;>
      simp [JsonStore.getWallets, JsonStore.readData, hc, emptyData]

/-- Witness for C7 at a store whose `"bad"` key holds a truthy non-array. -/
theorem getWallets_degrades_and_recovers_witness :
    JsonStore.getWallets "bad"
        (FileState.parsable (fun c => if c = "bad" then StoreValue.truthyNonList
          else StoreValue.absent)) =
      ([], FileState.parsable (fun c => if c = "bad" then StoreValue.truthyNonList
          else StoreValue.absent)) ∧
    JsonStore.getWallets "bad" FileState.unparseable = ([], FileState.parsable emptyData) ∧
    (∀ c, JsonStore.getWallets c (FileState.parsable emptyData) =
      ([], FileState.parsable emptyData)) :=
  getWallets_degrades_and_recovers
    (fun c => if c = "bad" then StoreValue.truthyNonList else StoreValue.absent) "bad"
    (by decide) (by decide)

/-! ### Balance aggregation -/

theorem balances_foldl (getBalance : String → Except String Int) (wallets : List Wallet) :
    ∀ (t : Int) (z : Nat),
      wallets.foldl (balanceStep getBalance) (t, z) =
        (t + (wallets.filterMap (fun w => (getBalance w.publicKey).toOption)).sum,
         z + (wallets.filterMap (fun w => (getBalance w.publicKey).toOption)).count 0) := by
  induction wallets with
  | nil => intro t z; simp
  | cons a rest ih =>
    intro t z
    rw [List.foldl_cons]
    cases hg : getBalance a.publicKey with
    | error e =>
      have hstep : balanceStep getBalance (t, z) a = (t, z) := by simp [balanceStep, hg]
      rw [hstep, ih]
      simp [List.filterMap_cons, hg, Except.toOption]
    | ok b =>
      have hstep : balanceStep getBalance (t, z) a =
          (t + b, z + if b = 0 then 1 else 0) := by simp [balanceStep, hg]
      rw [hstep, ih]
      by_cases hb : b = 0 <;>
        simp [List.filterMap_cons, hg, Except.toOption, List.count_cons, hb,
          Prod.ext_iff] <;>
      omega

/-- Claim C6: the balances operation reports the sum of the successfully
observed balances (a throwing query contributes zero and does not abort the
loop) and counts exactly the wallets whose query succeeded with balance `0`;
in particular, observed balances `[0, 5, 0, 10]` plus one throwing query yield
total `15` and zero-balance count `2`. -/
theorem getBalances_aggregation (getBalance : String → Except String Int)
    (wallets : List Wallet) :
    GetBalancesHandler.handle getBalance wallets =
      ((wallets.filterMap (fun w => (getBalance w.publicKey).toOption)).sum,
       (wallets.filterMap (fun w => (getBalance w.publicKey).toOption)).count 0) ∧
    GetBalancesHandler.handle
      (fun a => if a = "p1" then Except.ok 0 else if a = "p2" then Except.ok 5
        else if a = "p3" then Except.ok 0 else if a = "p4" then Except.error "network error"
        else Except.ok 10)
      [⟨"k1", "p1", "w0"⟩, ⟨"k2", "p2", "w1"⟩, ⟨"k3", "p3", "w2"⟩,
       ⟨"k4", "p4", "w3"⟩, ⟨"k5", "p5", "w4"⟩] = (15, 2) := by
  constructor
  · unfold GetBalancesHandler.handle
    rw [balances_foldl]
    simp
  · decide

/-! ### Funding -/

theorem fundLoop_spec (env : FundEnv) (minUnits : Int) (bal : String → Int) :
    ∀ wallets : List Wallet,
      (∀ w ∈ wallets, env.getBalance w.publicKey = Except.ok (bal w.publicKey)) →
      (fundLoop env minUnits wallets).1 =
        (wallets.filter (fun w => decide (bal w.publicKey < minUnits))).map
          Wallet.publicKey ∧
      ∃ funded, (fundLoop env minUnits wallets).2 =
        Except.ok (funded,
          (wallets.filter (fun w => decide (minUnits ≤ bal w.publicKey))).length) := by
  intro wallets
  induction wallets with
  | nil => intro _; exact ⟨rfl, 0, rfl⟩
  | cons a rest ih =>
    intro hb
    have ha : env.getBalance a.publicKey = Except.ok (bal a.publicKey) := hb a (by simp)
    obtain ⟨ih1, f, ih2⟩ := ih (fun w hw => hb w (by simp [hw]))
    by_cases hcmp : minUnits ≤ bal a.publicKey
    · constructor
      · simp only [fundLoop, ha]
        rw [if_pos hcmp]
        simp [List.filter_cons, not_lt.mpr hcmp, ih1]
      · refine ⟨f, ?_⟩
        simp only [fundLoop, ha]
        rw [if_pos hcmp]
        simp [ih2, List.filter_cons, hcmp, Except.map]
    · have hlt : bal a.publicKey < minUnits := not_le.mp hcmp
      constructor
      · simp only [fundLoop, ha]
        rw [if_neg hcmp]
        simp [List.filter_cons, hlt, ih1]
      · refine ⟨f + (match env.fundWallet a.publicKey with
          | .ok res => if res.successful then 1 else 0
          | .error _ => 0), ?_⟩
        simp only [fundLoop, ha]
        rw [if_neg hcmp]
        simp [ih2, List.filter_cons, hcmp, Except.map]

/-- Claim C2: `fund` computes `requiredTotal` as the per-wallet amount in the
chain's smallest unit times the wallet count; when it exceeds the funder's
balance the operation throws before any `fundWallet` call — the call list is
empty and the registry observations are unchanged. -/
theorem fundWallets_precheck_fatal (env : FundEnv) (chain : String) (amount minBalance : ℚ)
    (fs : FileState) (funderBalance : Int)
    (hfb : env.getBalance env.funder.publicKey = Except.ok funderBalance)
    (hlt : funderBalance < toSmallestUnit chain amount * (storedWallets chain fs).length) :
    (FundWalletsHandler.handle env chain amount minBalance fs).2.1 = [] ∧
    (FundWalletsHandler.handle env chain amount minBalance fs).2.2 =
      Except.error "funder balance is less than the required funding amount" ∧
    (∀ c, storedWallets c (FundWalletsHandler.handle env chain amount minBalance fs).1 =
      storedWallets c fs) := by
  have hlt' : funderBalance <
      toSmallestUnit chain amount * (JsonStore.getWallets chain fs).1.length := hlt
  have hh : FundWalletsHandler.handle env chain amount minBalance fs =
      ((JsonStore.getWallets chain fs).2, [],
       Except.error "funder balance is less than the required funding amount") := by
    simp only [FundWalletsHandler.handle, hfb]
    rw [if_pos hlt']
  rw [hh]
  exact ⟨rfl, rfl, fun c => storedWallets_getWallets_snd chain c fs⟩

def envC2 : FundEnv :=
  ⟨⟨"fkey", "funderpk", "funder"⟩, fun _ => Except.ok 0,
   fun _ => Except.ok ⟨none, true, none⟩⟩

def fsC2 : FileState :=
  FileState.parsable
    (fun c => if c = "solana" then StoreValue.list [⟨"k1", "p1", "wallet-0"⟩]
      else StoreValue.absent)

/-- Witness for C2: one registered wallet, amount 1 SOL, funder balance 0. -/
theorem fundWallets_precheck_fatal_witness :
    (FundWalletsHandler.handle envC2 "solana" 1 1 fsC2).2.1 = [] ∧
    (FundWalletsHandler.handle envC2 "solana" 1 1 fsC2).2.2 =
      Except.error "funder balance is less than the required funding amount" ∧
    (∀ c, storedWallets c (FundWalletsHandler.handle envC2 "solana" 1 1 fsC2).1 =
      storedWallets c fsC2) :=
  fundWallets_precheck_fatal envC2 "solana" 1 1 fsC2 0 rfl
    (by simp [toSmallestUnit, storedWallets, JsonStore.getWallets, JsonStore.readData, fsC2])

/-- Claim C8: once the pre-check passes, every wallet whose queried balance is
at least the threshold (in smallest units) is skipped and never passed to
`fundWallet`; the wallets below the threshold are passed to `fundWallet`
sequentially, in registry order. -/
theorem fundWallets_threshold_skip (env : FundEnv) (chain : String) (amount minBalance : ℚ)
    (fs : FileState) (funderBalance : Int) (bal : String → Int)
    (hfb : env.getBalance env.funder.publicKey = Except.ok funderBalance)
    (hok : toSmallestUnit chain amount * (storedWallets chain fs).length ≤ funderBalance)
    (hbal : ∀ w ∈ storedWallets chain fs,
      env.getBalance w.publicKey = Except.ok (bal w.publicKey)) :
    (FundWalletsHandler.handle env chain amount minBalance fs).2.1 =
      ((storedWallets chain fs).filter
        (fun w => decide (bal w.publicKey < toSmallestUnit chain minBalance))).map
        Wallet.publicKey ∧
    ∃ funded, (FundWalletsHandler.handle env chain amount minBalance fs).2.2 =
      Except.ok (funded,
        ((storedWallets chain fs).filter
          (fun w => decide (toSmallestUnit chain minBalance ≤ bal w.publicKey))).length) := by
  have hnot : ¬ funderBalance <
      toSmallestUnit chain amount * (JsonStore.getWallets chain fs).1.length :=
    not_lt.mpr hok
  have hh : FundWalletsHandler.handle env chain amount minBalance fs =
      ((JsonStore.getWallets chain fs).2,
       (fundLoop env (toSmallestUnit chain minBalance) (JsonStore.getWallets chain fs).1).1,
       (fundLoop env (toSmallestUnit chain minBalance) (JsonStore.getWallets chain fs).1).2) := by
    simp only [FundWalletsHandler.handle, hfb]
    rw [if_neg hnot]
  obtain ⟨h1, f, h2⟩ :=
    fundLoop_spec env (toSmallestUnit chain minBalance) bal (storedWallets chain fs) hbal
  rw [hh]
  exact ⟨h1, f, h2⟩

def envC8 : FundEnv :=
  ⟨⟨"fkey", "funderpk", "funder"⟩,
   fun a => if a = "funderpk" then Except.ok 10000000000000000000
     else if a = "p1" then Except.ok 2000000000000000000 else Except.ok 0,
   fun _ => Except.ok ⟨none, true, none⟩⟩

def fsC8 : FileState :=
  FileState.parsable
    (fun c => if c = "evm" then
        StoreValue.list [⟨"k1", "p1", "wallet-0"⟩, ⟨"k2", "p2", "wallet-1"⟩]
      else StoreValue.absent)

/-- Witness for C8: wallet `p1` sits above the 1-ETH threshold and is skipped;
wallet `p2` is below and is funded. -/
theorem fundWallets_threshold_skip_witness :
    (FundWalletsHandler.handle envC8 "evm" 1 1 fsC8).2.1 =
      ((storedWallets "evm" fsC8).filter
        (fun w => decide ((if w.publicKey = "funderpk" then (10000000000000000000 : Int)
          else if w.publicKey = "p1" then 2000000000000000000 else 0) <
          toSmallestUnit "evm" 1))).map Wallet.publicKey ∧
    ∃ funded, (FundWalletsHandler.handle envC8 "evm" 1 1 fsC8).2.2 =
      Except.ok (funded,
        ((storedWallets "evm" fsC8).filter
          (fun w => decide (toSmallestUnit "evm" 1 ≤
            (if w.publicKey = "funderpk" then (10000000000000000000 : Int)
              else if w.publicKey = "p1" then 2000000000000000000 else 0)))).length) :=
  fundWallets_threshold_skip envC8 "evm" 1 1 fsC8 10000000000000000000
    (fun a => if a = "funderpk" then 10000000000000000000
      else if a = "p1" then 2000000000000000000 else 0)
    rfl
    (by simp [toSmallestUnit, storedWallets, JsonStore.getWallets, JsonStore.readData, fsC8])
    (by
      intro w hw
      simp [storedWallets, JsonStore.getWallets, JsonStore.readData, fsC8] at hw
      rcases hw with rfl | rfl <;> rfl)

/-! ### Drain soft failures -/

/-- Claim C3: for either chain family, a drained wallet with zero balance
yields a soft failure `successful = false` with reason `"wallet balance is 0"`,
and a positive balance that cannot cover the estimated fee (gas price × gas
limit on EVM, the fixed minimum fee on Solana) yields `successful = false` with
a reason containing `"insufficient balance"`; in both branches no transfer is
submitted and no exception is thrown. -/
theorem drainWallet_soft_failures (gasLimit maxFee minFee balE balS : Int)
    (fd : EVMFeeData) (feeE : Except String EVMFeeData)
    (submitE : Int → Except String (String × Bool)) (sendS : Int → Except String String) :
    (EVMChainProvider.drainWallet gasLimit ⟨Except.ok 0, feeE, submitE⟩ =
      Except.ok (⟨none, false, some zeroBalanceReason⟩, [])) ∧
    (0 < balE → jsOr fd.maxFeePerGas fd.gasPrice = some maxFee → maxFee ≠ 0 →
      balE - gasLimit * maxFee ≤ 0 →
      EVMChainProvider.drainWallet gasLimit ⟨Except.ok balE, Except.ok fd, submitE⟩ =
        Except.ok (⟨none, false, some insufficientFeeReason⟩, [])) ∧
    (SolanaChainProvider.drainWallet minFee ⟨Except.ok 0, sendS⟩ =
      Except.ok (⟨none, false, some zeroBalanceReason⟩, [])) ∧
    (0 < balS → balS - minFee ≤ 0 →
      SolanaChainProvider.drainWallet minFee ⟨Except.ok balS, sendS⟩ =
        Except.ok (⟨none, false, some insufficientFeeReason⟩, [])) ∧
    zeroBalanceReason = "wallet balance is 0" ∧
    List.IsInfix "insufficient balance".data insufficientFeeReason.data := by
  refine ⟨?_, ?_, ?_, ?_, rfl, by decide⟩
  · simp [EVMChainProvider.drainWallet]
  · intro hb hmf hnz hle
    simp only [EVMChainProvider.drainWallet, hmf]
    rw [if_neg (not_le.mpr hb)]
    simp [jsTruthy, hnz, hle]
  · simp [SolanaChainProvider.drainWallet]
  · intro hb hle
    simp only [SolanaChainProvider.drainWallet]
    rw [if_neg (not_le.mpr hb)]
    rw [if_pos (by omega : balS ≤ minFee)]

/-- Witness for C3 at concrete balances and fees: EVM gas limit 21000 and gas
price 2 (fee 42000), Solana minimum fee 5000. -/
theorem drainWallet_soft_failures_witness :
    (EVMChainProvider.drainWallet 21000 ⟨Except.ok 0, Except.ok ⟨some 2, none, none⟩,
        fun _ => Except.ok ("txhash", true)⟩ =
      Except.ok (⟨none, false, some zeroBalanceReason⟩, [])) ∧
    (EVMChainProvider.drainWallet 21000 ⟨Except.ok 1, Except.ok ⟨some 2, none, none⟩,
        fun _ => Except.ok ("txhash", true)⟩ =
      Except.ok (⟨none, false, some insufficientFeeReason⟩, [])) ∧
    (SolanaChainProvider.drainWallet 5000 ⟨Except.ok 0, fun _ => Except.ok "sig"⟩ =
      Except.ok (⟨none, false, some zeroBalanceReason⟩, [])) ∧
    (SolanaChainProvider.drainWallet 5000 ⟨Except.ok 4999, fun _ => Except.ok "sig"⟩ =
      Except.ok (⟨none, false, some insufficientFeeReason⟩, [])) := by
  obtain ⟨h1, h2, h3, h4, _, _⟩ :=
    drainWallet_soft_failures 21000 2 5000 1 4999 ⟨some 2, none, none⟩
      (Except.ok ⟨some 2, none, none⟩) (fun _ => Except.ok ("txhash", true))
      (fun _ => Except.ok "sig")
  exact ⟨h1, h2 (by decide) (by decide) (by decide) (by decide), h3,
    h4 (by decide) (by decide)⟩

/-! ### Create numbering -/

/-- Claim C4: with `n0` wallets registered for the chain, `create` generates
exactly `count` wallets whose aliases are `wallet-n0 … wallet-(n0+count-1)` in
order, persists them in a single `add` call, and the registry count becomes
`n0 + count` (the generated keys are fresh: non-empty, pairwise distinct, and
not already registered). -/
theorem createWallets_numbering (gen : String → Wallet) (chain : String) (count : Nat)
    (fs : FileState) (hchain : chain ≠ "")
    (hwf : (JsonStore.readData fs).1 chain ≠ StoreValue.truthyNonList)
    (halias : ∀ a, (gen a).«alias» = a)
    (hpk : ∀ w ∈ (List.range count).map
      (fun i => gen (walletAliasFor ((storedWallets chain fs).length + i))), w.publicKey ≠ "")
    (hfresh : ∀ w ∈ (List.range count).map
      (fun i => gen (walletAliasFor ((storedWallets chain fs).length + i))),
      ∀ x ∈ storedWallets chain fs, x.publicKey ≠ w.publicKey)
    (hnodup : (((List.range count).map
      (fun i => gen (walletAliasFor ((storedWallets chain fs).length + i)))).map
        Wallet.publicKey).Nodup) :
    CreateWalletsHandler.handle gen chain count fs =
      JsonStore.add chain ((List.range count).map
        (fun i => gen (walletAliasFor ((storedWallets chain fs).length + i))))
        (JsonStore.count chain fs).2 ∧
    (((List.range count).map
      (fun i => gen (walletAliasFor ((storedWallets chain fs).length + i)))).map
        Wallet.«alias») =
      (List.range count).map (fun i => walletAliasFor ((storedWallets chain fs).length + i)) ∧
    ∃ counts, CreateWalletsHandler.handle gen chain count fs =
      ((CreateWalletsHandler.handle gen chain count fs).1, Except.ok counts) ∧
      storedWallets chain (CreateWalletsHandler.handle gen chain count fs).1 =
        storedWallets chain fs ++ (List.range count).map
          (fun i => gen (walletAliasFor ((storedWallets chain fs).length + i))) ∧
      (JsonStore.count chain (CreateWalletsHandler.handle gen chain count fs).1).1 =
        (storedWallets chain fs).length + count := by
  have hcur : storedWallets chain (JsonStore.count chain fs).2 = storedWallets chain fs :=
    storedWallets_getWallets_snd chain chain fs
  have hread : JsonStore.readData (JsonStore.count chain fs).2 = JsonStore.readData fs := by
    have h2 : (JsonStore.getWallets chain fs).2 = (JsonStore.readData fs).2 := by
      simp [JsonStore.getWallets, hchain]
    show JsonStore.readData (JsonStore.getWallets chain fs).2 = JsonStore.readData fs
    rw [h2, readData_snd]
  have hwf2 : (JsonStore.readData (JsonStore.count chain fs).2).1 chain ≠
      StoreValue.truthyNonList := by
    rw [hread]; exact hwf
  have key := add_ok_of_wf chain
    ((List.range count).map (fun i => gen (walletAliasFor ((storedWallets chain fs).length + i))))
    (JsonStore.count chain fs).2 hchain hwf2
  have hhandle : CreateWalletsHandler.handle gen chain count fs =
      JsonStore.add chain ((List.range count).map
        (fun i => gen (walletAliasFor ((storedWallets chain fs).length + i))))
        (JsonStore.count chain fs).2 := rfl
  have hfilter : ((List.range count).map
      (fun i => gen (walletAliasFor ((storedWallets chain fs).length + i)))).filter
      (fun w => !(w.publicKey == "")) =
      (List.range count).map
        (fun i => gen (walletAliasFor ((storedWallets chain fs).length + i))) := by
    rw [List.filter_eq_self]
    intro w hw
    simp [hpk w hw]
  have hflat : (((List.range count).map
      (fun i => gen (walletAliasFor ((storedWallets chain fs).length + i)))).foldl upsertStep
        (storedWallets chain (JsonStore.count chain fs).2, ⟨0, 0, 0⟩)).1 =
      storedWallets chain fs ++ (List.range count).map
        (fun i => gen (walletAliasFor ((storedWallets chain fs).length + i))) := by
    rw [hcur, foldl_upsertStep_fst, hfilter]
    exact foldl_upsertWallet_fresh _ (storedWallets chain fs) hfresh hnodup
  have hview : storedWallets chain (CreateWalletsHandler.handle gen chain count fs).1 =
      storedWallets chain fs ++ (List.range count).map
        (fun i => gen (walletAliasFor ((storedWallets chain fs).length + i))) := by
    rw [hhandle, key]
    rw [show (FileState.parsable (fun c => if c = chain
        then StoreValue.list ((((List.range count).map (fun i =>
          gen (walletAliasFor ((storedWallets chain fs).length + i)))).foldl upsertStep
          (storedWallets chain (JsonStore.count chain fs).2, ⟨0, 0, 0⟩)).1)
        else (JsonStore.readData (JsonStore.count chain fs).2).1 c),
        Except.ok ((((List.range count).map (fun i =>
          gen (walletAliasFor ((storedWallets chain fs).length + i)))).foldl upsertStep
          (storedWallets chain (JsonStore.count chain fs).2, ⟨0, 0, 0⟩)).2)).1 =
        FileState.parsable (fun c => if c = chain
        then StoreValue.list ((((List.range count).map (fun i =>
          gen (walletAliasFor ((storedWallets chain fs).length + i)))).foldl upsertStep
          (storedWallets chain (JsonStore.count chain fs).2, ⟨0, 0, 0⟩)).1)
        else (JsonStore.readData (JsonStore.count chain fs).2).1 c) from rfl]
    rw [storedWallets_update_self chain hchain _ _, hflat]
  refine ⟨hhandle, ?_, ?_⟩
  · rw [List.map_map]
    apply List.map_congr_left
    intro i _
    exact halias _
  · refine ⟨(((List.range count).map
      (fun i => gen (walletAliasFor ((storedWallets chain fs).length + i)))).foldl upsertStep
        (storedWallets chain (JsonStore.count chain fs).2, ⟨0, 0, 0⟩)).2, ?_, hview, ?_⟩
    · rw [hhandle, key]
    · show (storedWallets chain (CreateWalletsHandler.handle gen chain count fs).1).length = _
      rw [hview]
      simp

def genC4 : String → Wallet :=
  fun a => ⟨String.append "key-" a, String.append "pk-" a, a⟩

def fsC4 : FileState :=
  FileState.parsable
    (fun c => if c = "evm" then StoreValue.list [⟨"key-old", "pk-old", "wallet-0"⟩]
      else StoreValue.absent)

/-- Witness for C4: one existing wallet, `create(evm, 2)` produces aliases
`wallet-1` and `wallet-2` and the count becomes 3. -/
theorem createWallets_numbering_witness :
    CreateWalletsHandler.handle genC4 "evm" 2 fsC4 =
      JsonStore.add "evm" ((List.range 2).map
        (fun i => genC4 (walletAliasFor ((storedWallets "evm" fsC4).length + i))))
        (JsonStore.count "evm" fsC4).2 ∧
    (((List.range 2).map
      (fun i => genC4 (walletAliasFor ((storedWallets "evm" fsC4).length + i)))).map
        Wallet.«alias») =
      (List.range 2).map (fun i => walletAliasFor ((storedWallets "evm" fsC4).length + i)) ∧
    ∃ counts, CreateWalletsHandler.handle genC4 "evm" 2 fsC4 =
      ((CreateWalletsHandler.handle genC4 "evm" 2 fsC4).1, Except.ok counts) ∧
      storedWallets "evm" (CreateWalletsHandler.handle genC4 "evm" 2 fsC4).1 =
        storedWallets "evm" fsC4 ++ (List.range 2).map
          (fun i => genC4 (walletAliasFor ((storedWallets "evm" fsC4).length + i))) ∧
      (JsonStore.count "evm" (CreateWalletsHandler.handle genC4 "evm" 2 fsC4).1).1 =
        (storedWallets "evm" fsC4).length + 2 :=
  createWallets_numbering genC4 "evm" 2 fsC4 (by decide) (by decide) (fun a => rfl)
    (by decide) (by decide) (by decide)

/-! ### Drain batching -/

theorem chunksOfAux_flatten (width : Nat) (hw : 0 < width) :
    ∀ (fuel : Nat) (l : List Wallet), l.length ≤ fuel →
      (chunksOfAux width fuel l).flatten = l := by
  intro fuel
  induction fuel with
  | zero =>
    intro l hl
    have hnil : l = [] := List.length_eq_zero.mp (Nat.le_zero.mp hl)
    subst hnil
    rfl
  | succ n ih =>
    intro l hl
    cases l with
    | nil => rfl
    | cons a rest =>
      show (((a :: rest).take width) ::
        chunksOfAux width n ((a :: rest).drop width)).flatten = a :: rest
      rw [List.flatten_cons, ih ((a :: rest).drop width) ?_]
      · exact List.take_append_drop width (a :: rest)
      · rw [List.length_drop]
        simp only [List.length_cons] at hl ⊢
        omega

theorem chunksOfAux_sizes (width : Nat) (hw : 0 < width) :
    ∀ (fuel : Nat) (l : List Wallet), l.length ≤ fuel →
      ∀ b ∈ chunksOfAux width fuel l, b ≠ [] ∧ b.length ≤ width := by
  intro fuel
  induction fuel with
  | zero =>
    intro l hl b hb
    have hnil : l = [] := List.length_eq_zero.mp (Nat.le_zero.mp hl)
    subst hnil
    simp [chunksOfAux] at hb
  | succ n ih =>
    intro l hl b hb
    cases l with
    | nil => simp [chunksOfAux] at hb
    | cons a rest =>
      rw [show chunksOfAux width (n + 1) (a :: rest) =
        ((a :: rest).take width) :: chunksOfAux width n ((a :: rest).drop width) from rfl] at hb
      rcases List.mem_cons.mp hb with rfl | hb
      · constructor
        · cases width with
          | zero => omega
          | succ k => simp [List.take_succ_cons]
        · exact List.length_take_le width (a :: rest)
      · refine ih _ ?_ b hb
        rw [List.length_drop]
        simp only [List.length_cons] at hl ⊢
        omega

theorem chunksOfAux_map_length_congr (width : Nat) :
    ∀ (fuel : Nat) (l l' : List Wallet), l.length = l'.length →
      (chunksOfAux width fuel l).map List.length =
        (chunksOfAux width fuel l').map List.length := by
  intro fuel
  induction fuel with
  | zero =>
    intro l l' h
    cases l <;> cases l' <;> simp_all [chunksOfAux]
  | succ n ih =>
    intro l l' h
    cases l with
    | nil =>
      cases l' with
      | nil => rfl
      | cons b t' => simp at h
    | cons a t =>
      cases l' with
      | nil => simp at h
      | cons b t' =>
        simp only [chunksOfAux, List.map_cons]
        congr 1
        · rw [List.length_take, List.length_take, h]
        · exact ih _ _ (by rw [List.length_drop, List.length_drop, h])

theorem chunksOf_sizes_45 (l : List Wallet) (h : l.length = 45) :
    (chunksOf 20 l).map List.length = [20, 20, 5] := by
  have hcongr := chunksOfAux_map_length_congr 20 45 l
    (List.replicate 45 ⟨"", "", ""⟩) (by simp [h])
  unfold chunksOf
  rw [h, hcongr]
  decide

theorem drainTrace_decomp (resolveOrder : List Wallet → List Wallet) (wallets : List Wallet)
    (pre post : List (List Wallet)) (b₁ b₂ : List Wallet)
    (hb : DrainWalletsHandler.batches wallets = pre ++ b₁ :: b₂ :: post) :
    ∃ epre epost, DrainWalletsHandler.trace resolveOrder wallets =
      epre ++ b₁.map DrainEvent.issue ++ (resolveOrder b₁).map DrainEvent.resolve ++
        b₂.map DrainEvent.issue ++ epost := by
  refine ⟨(pre.map (batchEvents resolveOrder)).flatten,
    (resolveOrder b₂).map DrainEvent.resolve ++
      (post.map (batchEvents resolveOrder)).flatten, ?_⟩
  unfold DrainWalletsHandler.trace
  rw [hb]
  simp [batchEvents, List.append_assoc]

/-- Claim C5: drain partitions the registered wallets into consecutive batches
of width 20 in registry order (45 wallets give exactly 3 batches of sizes 20,
20, 5), and every `drainWallet` call of a batch resolves before any call of the
next batch is issued. -/
theorem drainWallets_batching (wallets : List Wallet)
    (resolveOrder : List Wallet → List Wallet)
    (hperm : ∀ b, (resolveOrder b).Perm b) :
    (DrainWalletsHandler.batches wallets).flatten = wallets ∧
    (∀ b ∈ DrainWalletsHandler.batches wallets, b ≠ [] ∧ b.length ≤ concurrencyLimit) ∧
    (wallets.length = 45 →
      (DrainWalletsHandler.batches wallets).map List.length = [20, 20, 5]) ∧
    (∀ pre b₁ b₂ post, DrainWalletsHandler.batches wallets = pre ++ b₁ :: b₂ :: post →
      (resolveOrder b₁).Perm b₁ ∧
      ∃ epre epost, DrainWalletsHandler.trace resolveOrder wallets =
        epre ++ b₁.map DrainEvent.issue ++ (resolveOrder b₁).map DrainEvent.resolve ++
          b₂.map DrainEvent.issue ++ epost) :=
  ⟨chunksOfAux_flatten 20 (by decide) wallets.length wallets le_rfl,
   fun b hb => chunksOfAux_sizes 20 (by decide) wallets.length wallets le_rfl b hb,
   fun h => chunksOf_sizes_45 wallets h,
   fun pre b₁ b₂ post hb =>
     ⟨hperm b₁, drainTrace_decomp resolveOrder wallets pre post b₁ b₂ hb⟩⟩

def walletsC5 : List Wallet := (List.range 45).map (fun i => ⟨"key", toString i, "w"⟩)

def batchC5a : List Wallet := walletsC5.take 20

def batchC5b : List Wallet := (walletsC5.drop 20).take 20

def batchC5c : List Wallet := walletsC5.drop 40

/-- Witness for C5 on a concrete list of 45 wallets with the runtime resolving
each batch in issue order. -/
theorem drainWallets_batching_witness :
    (DrainWalletsHandler.batches walletsC5).flatten = walletsC5 ∧
    (DrainWalletsHandler.batches walletsC5).map List.length = [20, 20, 5] ∧
    (id batchC5a).Perm batchC5a ∧
    ∃ epre epost, DrainWalletsHandler.trace id walletsC5 =
      epre ++ batchC5a.map DrainEvent.issue ++ (id batchC5a).map DrainEvent.resolve ++
        batchC5b.map DrainEvent.issue ++ epost := by
  obtain ⟨h1, h2, h3, h4⟩ := drainWallets_batching walletsC5 id (fun b => List.Perm.refl b)
  have hdec : DrainWalletsHandler.batches walletsC5 =
      [] ++ batchC5a :: batchC5b :: [batchC5c] := by decide
  obtain ⟨hperm, hex⟩ := h4 [] batchC5a batchC5b [batchC5c] hdec
  exact ⟨h1, h3 (by decide), hperm, hex⟩

end WalletTools
